import Mathlib

/-!
Verification development for the heatmap synthesis pipeline of
`heat_map.py`: detection extraction, density rasterization, color-ramp
construction and alpha compositing.  Real-valued numpy arithmetic is
embedded over `ℚ`; `uint8` casts are modelled by truncation toward zero.
-/

namespace HeatMap

/-- Python `int()` on a rational: truncation toward zero
(`int(2.7) = 2`, `int(-2.7) = -2`). -/
def pyInt (q : ℚ) : ℤ :=
  if 0 ≤ q then ⌊q⌋ else -⌊-q⌋

/-- numpy cast of a nonnegative real value to `uint8`
(`astype(np.uint8)` / assignment into a `uint8` array): truncation
toward zero.  All values cast in this pipeline lie in `[0, 255]`, so
no wraparound occurs and truncation coincides with the floor. -/
def toU8 (q : ℚ) : ℕ :=
  (pyInt q).toNat

theorem pyInt_nonneg_eq_floor (q : ℚ) (h : 0 ≤ q) : pyInt q = ⌊q⌋ := by
  simp [pyInt, h]

theorem toU8_natCast (n : ℕ) : toU8 (n : ℚ) = n := by
  simp [toU8, pyInt]

theorem toU8_intCast (z : ℤ) (h : 0 ≤ z) : toU8 (z : ℚ) = z.toNat := by
  have hz : (0 : ℚ) ≤ (z : ℚ) := by exact_mod_cast h
  simp [toU8, pyInt, hz]

/-- A 4-component vector of rationals: one `BGRA` color value during the
real-valued phase of the colormap computation. -/
abbrev Vec4 : Type := ℚ × ℚ × ℚ × ℚ

/-- A 4-component `uint8` color entry, in `BGRA` order. -/
abbrev U8x4 : Type := ℕ × ℕ × ℕ × ℕ

/-- Componentwise cast of a real-valued color to `uint8`
(numpy assignment of a float row into a `uint8` array). -/
def toU8v (v : Vec4) : U8x4 :=
  (toU8 v.1, toU8 v.2.1, toU8 v.2.2.1, toU8 v.2.2.2)

/-- Componentwise scalar multiplication of a color vector. -/
def smulV (r : ℚ) (v : Vec4) : Vec4 :=
  (r * v.1, r * v.2.1, r * v.2.2.1, r * v.2.2.2)

/-- Componentwise addition of two color vectors. -/
def addV (v w : Vec4) : Vec4 :=
  (v.1 + w.1, v.2.1 + w.2.1, v.2.2.1 + w.2.2.1, v.2.2.2 + w.2.2.2)

/-- The alpha (fourth) component of a colormap entry. -/
def alphaOf (v : U8x4) : ℕ := v.2.2.2

/-- `thrs1 = int(255 * 0.10)` of `create_custom_colormap`. -/
def thrs1 : ℕ := (pyInt (255 * (1 / 10 : ℚ))).toNat

/-- `thrs2 = int(255 * 0.25)` of `create_custom_colormap`. -/
def thrs2 : ℕ := (pyInt (255 * (25 / 100 : ℚ))).toNat

/-- `thrs3 = int(255 * 0.50)` of `create_custom_colormap`. -/
def thrs3 : ℕ := (pyInt (255 * (50 / 100 : ℚ))).toNat

/-- `thrs4 = int(255 * 0.70)` of `create_custom_colormap`. -/
def thrs4 : ℕ := (pyInt (255 * (70 / 100 : ℚ))).toNat

/-- The body of the loop of `create_custom_colormap` for an index
`i ∈ [1, 255]`: piecewise-linear interpolation through the five anchor
colors `blue, green, yellow, orange, red` (BGRA order), each carrying
alpha `int(255 * alpha)`, at thresholds `thrs1 .. thrs4`. -/
def rampEntry (alpha : ℚ) (i : ℕ) : U8x4 :=
  let a : ℚ := ((pyInt (255 * alpha) : ℤ) : ℚ)
  let blue : Vec4 := (255, 0, 0, a)
  let green : Vec4 := (0, 255, 0, a)
  let yellow : Vec4 := (0, 255, 255, a)
  let orange : Vec4 := (0, 165, 255, a)
  let red : Vec4 := (0, 0, 255, a)
  if i ≤ thrs1 then
    let ratio : ℚ := (i : ℚ) / (thrs1 : ℚ)
    toU8v (addV (smulV (1 - ratio) blue) (smulV ratio green))
  else if i ≤ thrs2 then
    let ratio : ℚ := ((i : ℚ) - (thrs1 : ℚ)) / ((thrs2 : ℚ) - (thrs1 : ℚ))
    toU8v (addV (smulV (1 - ratio) green) (smulV ratio yellow))
  else if i ≤ thrs3 then
    let ratio : ℚ := ((i : ℚ) - (thrs2 : ℚ)) / ((thrs3 : ℚ) - (thrs2 : ℚ))
    toU8v (addV (smulV (1 - ratio) yellow) (smulV ratio orange))
  else if i ≤ thrs4 then
    let ratio : ℚ := ((i : ℚ) - (thrs3 : ℚ)) / ((thrs4 : ℚ) - (thrs3 : ℚ))
    toU8v (addV (smulV (1 - ratio) orange) (smulV ratio red))
  else
    toU8v red

/-- `create_custom_colormap(alpha)`: the 256-entry BGRA lookup table; the
entry at index 0 is `[0, 0, 0, 0]` and every other entry comes from the
interpolation loop. -/
def create_custom_colormap (alpha : ℚ) : List U8x4 :=
  (List.range 256).map (fun i => if i = 0 then (0, 0, 0, 0) else rampEntry alpha i)

theorem pyInt_intCast (z : ℤ) : pyInt (z : ℚ) = z := by
  unfold pyInt
  split
  · exact Int.floor_intCast z
  · rw [show -(z : ℚ) = ((-z : ℤ) : ℚ) by push_cast; ring, Int.floor_intCast]
    ring

theorem create_custom_colormap_length (alpha : ℚ) :
    (create_custom_colormap alpha).length = 256 := by
  simp [create_custom_colormap]

theorem create_custom_colormap_getD (alpha : ℚ) (i : ℕ) (h : i < 256) (d : U8x4) :
    (create_custom_colormap alpha).getD i d =
      if i = 0 then (0, 0, 0, 0) else rampEntry alpha i := by
  unfold create_custom_colormap
  rw [List.getD_eq_getElem?_getD, List.getElem?_map, List.getElem?_range h]
  rfl

theorem rampEntry_alphaOf (alpha : ℚ) (i : ℕ) :
    alphaOf (rampEntry alpha i) = (pyInt (255 * alpha)).toNat := by
  have key : ∀ r a : ℚ, (1 - r) * a + r * a = a := by intro r a; ring
  unfold rampEntry
  split
  · simp only [toU8v, addV, smulV, alphaOf, key]
    rw [show ((pyInt (255 * alpha) : ℤ) : ℚ) = _ from rfl, toU8]
    rw [pyInt_intCast]
  all_goals split
  all_goals try
    · simp only [toU8v, addV, smulV, alphaOf, key]
      rw [toU8, pyInt_intCast]
  all_goals split
  all_goals try
    · simp only [toU8v, addV, smulV, alphaOf, key]
      rw [toU8, pyInt_intCast]
  all_goals split
  all_goals simp only [toU8v, addV, smulV, alphaOf, key]
  all_goals rw [toU8, pyInt_intCast]

/-- C1 (corrected): for every `alpha ∈ [0,1]` the table built by
`create_custom_colormap` has exactly 256 entries, entry 0 has alpha
component 0, and every entry with index 1 through 255 carries the same
constant alpha component `⌊255 * alpha⌋` — the truncation `int(255 * alpha)`,
not the rounding `round(255 * alpha)` asserted by the claim. -/
theorem claim_C1 (alpha : ℚ) (h0 : 0 ≤ alpha) (_h1 : alpha ≤ 1) :
    (create_custom_colormap alpha).length = 256 ∧
    alphaOf ((create_custom_colormap alpha).getD 0 (0, 0, 0, 0)) = 0 ∧
    ∀ i : ℕ, 1 ≤ i → i ≤ 255 →
      alphaOf ((create_custom_colormap alpha).getD i (0, 0, 0, 0)) =
        ⌊255 * alpha⌋.toNat := by
  refine ⟨create_custom_colormap_length alpha, ?_, ?_⟩
  · rw [create_custom_colormap_getD alpha 0 (by norm_num) _]
    rfl
  · intro i hi1 hi255
    rw [create_custom_colormap_getD alpha i (by omega) _]
    rw [if_neg (by omega), rampEntry_alphaOf]
    have h255 : (0 : ℚ) ≤ 255 * alpha := by positivity
    rw [pyInt_nonneg_eq_floor _ h255]

/-- C1, refutation of the claim as stated: at the code's default
`alpha = 0.45`, entry 1 of the table carries alpha component
`int(255 * 0.45) = 114`, while the claim's `round(255 * 0.45) = 115`. -/
theorem claim_C1_counterexample :
    alphaOf ((create_custom_colormap (45 / 100)).getD 1 (0, 0, 0, 0)) ≠
      (round ((255 : ℚ) * (45 / 100))).toNat := by
  rw [create_custom_colormap_getD (45 / 100) 1 (by norm_num) _,
    if_neg (by norm_num), rampEntry_alphaOf]
  have h1 : pyInt (255 * (45 / 100 : ℚ)) = 114 := by
    rw [pyInt_nonneg_eq_floor _ (by norm_num)]
    norm_num
  have h2 : round ((255 : ℚ) * (45 / 100)) = 115 := by norm_num [round_eq]
  rw [h1, h2]
  decide

/-- Witness for C1: the amended statement instantiated at the concrete
alpha `45/100` and index 5. -/
theorem claim_C1_witness :
    (0 : ℚ) ≤ 45 / 100 ∧ (45 / 100 : ℚ) ≤ 1 ∧
    alphaOf ((create_custom_colormap (45 / 100)).getD 5 (0, 0, 0, 0)) =
      ⌊(255 : ℚ) * (45 / 100)⌋.toNat := by
  refine ⟨by norm_num, by norm_num, ?_⟩
  exact (claim_C1 (45 / 100) (by norm_num) (by norm_num)).2.2 5 (by norm_num) (by norm_num)

/-- Claim C5's reading of the ramp, following the specification's words:
breakpoint indices 25, 63, 127, 178; on `(0, 25]` the entry interpolates
cold (blue) to green by ratio `i/25`, on `(25, 63]` green to yellow by
`(i-25)/(63-25)`, analogously yellow to orange on `(63, 127]` and orange
to red on `(127, 178]`, and above 178 the constant red anchor.  Stated
as a second definition, to be compared against `rampEntry`. -/
def rampSpecEntry (alpha : ℚ) (i : ℕ) : U8x4 :=
  let a : ℚ := ((pyInt (255 * alpha) : ℤ) : ℚ)
  let lerp : ℚ → Vec4 → Vec4 → Vec4 := fun r v w =>
    ((1 - r) * v.1 + r * w.1, (1 - r) * v.2.1 + r * w.2.1,
     (1 - r) * v.2.2.1 + r * w.2.2.1, (1 - r) * v.2.2.2 + r * w.2.2.2)
  let blue : Vec4 := (255, 0, 0, a)
  let green : Vec4 := (0, 255, 0, a)
  let yellow : Vec4 := (0, 255, 255, a)
  let orange : Vec4 := (0, 165, 255, a)
  let red : Vec4 := (0, 0, 255, a)
  if i ≤ 25 then toU8v (lerp ((i : ℚ) / 25) blue green)
  else if i ≤ 63 then toU8v (lerp (((i : ℚ) - 25) / (63 - 25)) green yellow)
  else if i ≤ 127 then toU8v (lerp (((i : ℚ) - 63) / (127 - 63)) yellow orange)
  else if i ≤ 178 then toU8v (lerp (((i : ℚ) - 127) / (178 - 127)) orange red)
  else toU8v red

/-- C5: the thresholds computed by `create_custom_colormap` are exactly
25, 63, 127, 178 (the floored values of 0.10, 0.25, 0.50, 0.70 times
255), and every table entry with index 1 through 255 agrees with the
piecewise linear interpolation stated by the specification. -/
theorem claim_C5 :
    (thrs1 = 25 ∧ thrs2 = 63 ∧ thrs3 = 127 ∧ thrs4 = 178) ∧
    ∀ (alpha : ℚ) (i : ℕ), 1 ≤ i → i ≤ 255 →
      (create_custom_colormap alpha).getD i (0, 0, 0, 0) = rampSpecEntry alpha i := by
  have h1 : thrs1 = 25 := by
    rw [thrs1, pyInt_nonneg_eq_floor _ (by norm_num)]; norm_num; decide
  have h2 : thrs2 = 63 := by
    rw [thrs2, pyInt_nonneg_eq_floor _ (by norm_num)]; norm_num; decide
  have h3 : thrs3 = 127 := by
    rw [thrs3, pyInt_nonneg_eq_floor _ (by norm_num)]; norm_num; decide
  have h4 : thrs4 = 178 := by
    rw [thrs4, pyInt_nonneg_eq_floor _ (by norm_num)]; norm_num; decide
  refine ⟨⟨h1, h2, h3, h4⟩, ?_⟩
  intro alpha i hi1 hi255
  rw [create_custom_colormap_getD alpha i (by omega) _, if_neg (by omega)]
  unfold rampEntry rampSpecEntry
  rw [h1, h2, h3, h4]
  split_ifs
  all_goals congr 1

/-- `msg.split('|')` on the character list: split at every `'|'`,
keeping empty pieces, as Python `str.split` with an explicit separator
does. -/
def splitPipeAux : List Char → List Char → List (List Char)
  | [], acc => [acc.reverse]
  | c :: cs, acc =>
    if c = '|' then acc.reverse :: splitPipeAux cs []
    else splitPipeAux cs (c :: acc)

/-- `msg.split('|')`. -/
def splitPipe (s : String) : List String :=
  (splitPipeAux s.data []).map String.mk

/-- The natural number denoted by a list of decimal digit characters. -/
def natOfDigits (cs : List Char) : ℕ :=
  cs.foldl (fun a c => 10 * a + (c.toNat - 48)) 0

/-- Strip leading and trailing whitespace, as `float(str)` does before
parsing. -/
def trimChars (cs : List Char) : List Char :=
  ((cs.dropWhile Char.isWhitespace).reverse.dropWhile Char.isWhitespace).reverse

/-- Recognize a finite decimal literal `[+-]digits[.digits]` with at
least one digit; yields (negative sign, integer part, fraction digits
value, fraction length). -/
def decLit? (cs : List Char) : Option (Bool × ℕ × ℕ × ℕ) :=
  let signSplit : Bool × List Char :=
    match cs with
    | '+' :: rest => (false, rest)
    | '-' :: rest => (true, rest)
    | _ => (false, cs)
  let neg := signSplit.1
  let cs1 := signSplit.2
  let ip := cs1.takeWhile Char.isDigit
  match cs1.dropWhile Char.isDigit with
  | [] => if ip.isEmpty then none else some (neg, natOfDigits ip, 0, 0)
  | '.' :: rest2 =>
    let fp := rest2.takeWhile Char.isDigit
    if (rest2.dropWhile Char.isDigit).isEmpty ∧ (¬ip.isEmpty ∨ ¬fp.isEmpty) then
      some (neg, natOfDigits ip, natOfDigits fp, fp.length)
    else none
  | _ => none

/-- Python `float(str)`, modelled on finite decimal literals (optional
sign, digits, optional fractional part, surrounding whitespace allowed);
`none` when the string does not parse.  Exponent notation and the
special values inf/nan are not modelled — no input relevant to the
claims uses them. -/
def pyFloat? (s : String) : Option ℚ :=
  (decLit? (trimChars s.data)).map (fun t =>
    (if t.1 then (-1 : ℚ) else 1) * ((t.2.1 : ℚ) + (t.2.2.1 : ℚ) / (10 : ℚ) ^ t.2.2.2))

/-- Python `str.lower()` (ASCII case folding, as used on the class
label). -/
def lowerStr (s : String) : String :=
  String.mk (s.data.map Char.toLower)

/-- The `fields` object of one hit record; the `deepstream-msg` key may
be missing (`fields.get('deepstream-msg', [])`). -/
structure GeoFields where
  deepstream_msg : Option (List String)

/-- One entry of `hits.hits`; its `fields` object may be missing
(`hit.get('fields', {})`). -/
structure GeoHit where
  fields : Option GeoFields

/-- The outer `hits` object; the inner `hits` list may be missing. -/
structure GeoHits where
  hits : Option (List GeoHit)

/-- The parsed JSON document handed to `parse_geojson`; the outer
`hits` object may be missing (`data.get('hits', {})`). -/
structure GeoDoc where
  hits : Option GeoHits

/-- `hit.get('fields', {}).get('deepstream-msg', [])`: a missing level
contributes the empty message list. -/
def hitMessages (h : GeoHit) : List String :=
  match h.fields with
  | none => []
  | some f => f.deepstream_msg.getD []

/-- `data.get('hits', {}).get('hits', [])`. -/
def docHits (d : GeoDoc) : List GeoHit :=
  match d.hits with
  | none => []
  | some ho => ho.hits.getD []

/-- The per-message body of the loop of `parse_geojson`: skip (`none`)
unless the message splits into exactly 7 `'|'`-separated parts, the four
coordinate fields parse as numbers, and the class label at index 5
equals `"person"` case-insensitively; otherwise yield the centroid
`((x_min+x_max)/2, (y_min+y_max)/2)`. -/
def parseMsg (msg : String) : Option (ℚ × ℚ) :=
  if (splitPipe msg).length = 7 then
    match pyFloat? ((splitPipe msg).getD 1 ""), pyFloat? ((splitPipe msg).getD 2 ""),
        pyFloat? ((splitPipe msg).getD 3 ""), pyFloat? ((splitPipe msg).getD 4 "") with
    | some x_min, some y_min, some x_max, some y_max =>
      if lowerStr ((splitPipe msg).getD 5 "") = "person" then
        some ((x_min + x_max) / 2, (y_min + y_max) / 2)
      else none
    | _, _, _, _ => none
  else none

/-- `parse_geojson`: all person centroids of the document, in document
order. -/
def parse_geojson (d : GeoDoc) : List (ℚ × ℚ) :=
  (docHits d).flatMap (fun h => (hitMessages h).filterMap parseMsg)

/-- C7: a document whose only message is
`"1|100|100|200|200|person|region"` extracts exactly the centroid
`((100+200)/2, (100+200)/2) = (150, 150)`; the same message with class
label `"car"` extracts nothing. -/
theorem claim_C7 :
    parse_geojson ⟨some ⟨some [⟨some ⟨some ["1|100|100|200|200|person|region"]⟩⟩]⟩⟩ =
      [(150, 150)] ∧
    parse_geojson ⟨some ⟨some [⟨some ⟨some ["1|100|100|200|200|car|region"]⟩⟩]⟩⟩ = [] := by
  have h100 : pyFloat? "100" = some (100 : ℚ) := by
    rw [pyFloat?, show decLit? (trimChars "100".data) = some (false, 100, 0, 0) by decide]
    norm_num
  have h200 : pyFloat? "200" = some (200 : ℚ) := by
    rw [pyFloat?, show decLit? (trimChars "200".data) = some (false, 200, 0, 0) by decide]
    norm_num
  have hperson : parseMsg "1|100|100|200|200|person|region" = some (150, 150) := by
    unfold parseMsg
    rw [show splitPipe "1|100|100|200|200|person|region" =
      ["1", "100", "100", "200", "200", "person", "region"] by decide]
    simp only [List.getD_cons_succ, List.getD_cons_zero, h100, h200]
    rw [if_pos (by decide), if_pos (by decide)]
    norm_num
  have hcar : parseMsg "1|100|100|200|200|car|region" = none := by
    unfold parseMsg
    rw [show splitPipe "1|100|100|200|200|car|region" =
      ["1", "100", "100", "200", "200", "car", "region"] by decide]
    simp only [List.getD_cons_succ, List.getD_cons_zero, h100, h200]
    rw [if_pos (by decide), if_neg (by decide)]
  constructor
  · simp [parse_geojson, docHits, hitMessages, hperson]
  · simp [parse_geojson, docHits, hitMessages, hcar]

/-- C8: extraction is total and silently drops anomalies: a missing
level of the document tree contributes no detections, a message that
does not split into exactly 7 parts is skipped, a message whose four
coordinate fields do not all parse as numbers is skipped, and a message
is accepted only when its class label (field 5) equals `"person"` after
case folding. -/
theorem claim_C8 :
    (∀ d : GeoDoc, d.hits = none → parse_geojson d = []) ∧
    (∀ (d : GeoDoc) (ho : GeoHits), d.hits = some ho → ho.hits = none →
      parse_geojson d = []) ∧
    (∀ h : GeoHit, h.fields = none → hitMessages h = []) ∧
    (∀ (h : GeoHit) (f : GeoFields), h.fields = some f → f.deepstream_msg = none →
      hitMessages h = []) ∧
    (∀ msg : String, (splitPipe msg).length ≠ 7 → parseMsg msg = none) ∧
    (∀ msg : String,
      (pyFloat? ((splitPipe msg).getD 1 "") = none ∨
       pyFloat? ((splitPipe msg).getD 2 "") = none ∨
       pyFloat? ((splitPipe msg).getD 3 "") = none ∨
       pyFloat? ((splitPipe msg).getD 4 "") = none) → parseMsg msg = none) ∧
    (∀ (msg : String) (c : ℚ × ℚ), parseMsg msg = some c →
      lowerStr ((splitPipe msg).getD 5 "") = "person") := by
  refine ⟨?_, ?_, ?_, ?_, ?_, ?_, ?_⟩
  · intro d hd
    simp [parse_geojson, docHits, hd]
  · intro d ho hd hho
    simp [parse_geojson, docHits, hd, hho]
  · intro h hf
    simp [hitMessages, hf]
  · intro h f hf hm
    simp [hitMessages, hf, hm]
  · intro msg h7
    unfold parseMsg
    rw [if_neg h7]
  · intro msg hcoord
    unfold parseMsg
    split
    · cases e1 : pyFloat? ((splitPipe msg).getD 1 "") <;>
        cases e2 : pyFloat? ((splitPipe msg).getD 2 "") <;>
          cases e3 : pyFloat? ((splitPipe msg).getD 3 "") <;>
            cases e4 : pyFloat? ((splitPipe msg).getD 4 "") <;>
              simp_all
    · rfl
  · intro msg c h
    unfold parseMsg at h
    split at h
    · cases e1 : pyFloat? ((splitPipe msg).getD 1 "") <;>
        cases e2 : pyFloat? ((splitPipe msg).getD 2 "") <;>
          cases e3 : pyFloat? ((splitPipe msg).getD 3 "") <;>
            cases e4 : pyFloat? ((splitPipe msg).getD 4 "") <;>
              rw [e1, e2, e3, e4] at h <;> dsimp only at h <;>
                try exact Option.noConfusion h
      by_cases hlab : lowerStr ((splitPipe msg).getD 5 "") = "person"
      · exact hlab
      · rw [if_neg hlab] at h
        exact Option.noConfusion h
    · exact Option.noConfusion h

/-- Witness for C8: a 6-field message is skipped, a message with an
unparsable coordinate is skipped, and the empty document extracts
nothing. -/
theorem claim_C8_witness :
    parseMsg "1|100|100|200|200|person" = none ∧
    parseMsg "1|a|100|200|200|person|region" = none ∧
    parse_geojson ⟨none⟩ = [] := by
  refine ⟨claim_C8.2.2.2.2.1 "1|100|100|200|200|person" (by decide), ?_,
    claim_C8.1 ⟨none⟩ rfl⟩
  exact claim_C8.2.2.2.2.2.1 "1|a|100|200|200|person|region" (Or.inl (by decide))

/-- The guard `0 <= x < width and 0 <= y < height` of the accumulation
loop of `generate_heatmap`, on a detection `(x, y)`. -/
def inBounds (width height : ℕ) (d : ℚ × ℚ) : Prop :=
  0 ≤ d.1 ∧ d.1 < (width : ℚ) ∧ 0 ≤ d.2 ∧ d.2 < (height : ℚ)

instance (width height : ℕ) (d : ℚ × ℚ) : Decidable (inBounds width height d) := by
  unfold inBounds; infer_instance

/-- One iteration of the accumulation loop of `generate_heatmap`:
`heatmap[int(y), int(x)] += 1` when the detection is in bounds, and no
change otherwise. -/
def accumStep (width height : ℕ) (g : ℕ → ℕ → ℕ) (d : ℚ × ℚ) : ℕ → ℕ → ℕ :=
  if inBounds width height d then
    fun r c => if r = (pyInt d.2).toNat ∧ c = (pyInt d.1).toNat then g r c + 1 else g r c
  else g

/-- The density grid right after the accumulation loop of
`generate_heatmap`, before smoothing: a zero-initialized `height × width`
grid with one increment per in-bounds detection. -/
def accumGrid (dets : List (ℚ × ℚ)) (width height : ℕ) : ℕ → ℕ → ℕ :=
  dets.foldl (accumStep width height) (fun _ _ => 0)

/-- A detection is in bounds and lands on cell `(r, c) = (⌊y⌋, ⌊x⌋)`. -/
def hitsCell (width height : ℕ) (r c : ℕ) (d : ℚ × ℚ) : Prop :=
  inBounds width height d ∧ ⌊d.2⌋.toNat = r ∧ ⌊d.1⌋.toNat = c

instance (width height r c : ℕ) (d : ℚ × ℚ) : Decidable (hitsCell width height r c d) := by
  unfold hitsCell; infer_instance

theorem pyInt_eq_floor_of_inBounds_x (width height : ℕ) (d : ℚ × ℚ)
    (h : inBounds width height d) : (pyInt d.1).toNat = ⌊d.1⌋.toNat := by
  rw [pyInt_nonneg_eq_floor _ h.1]

theorem pyInt_eq_floor_of_inBounds_y (width height : ℕ) (d : ℚ × ℚ)
    (h : inBounds width height d) : (pyInt d.2).toNat = ⌊d.2⌋.toNat := by
  rw [pyInt_nonneg_eq_floor _ h.2.2.1]

theorem accumGrid_foldl (width height : ℕ) (dets : List (ℚ × ℚ))
    (g : ℕ → ℕ → ℕ) (r c : ℕ) :
    dets.foldl (accumStep width height) g r c =
      g r c + (dets.filter (fun d => decide (hitsCell width height r c d))).length := by
  induction dets generalizing g with
  | nil => simp
  | cons d rest ih =>
    rw [List.foldl_cons, ih, List.filter_cons]
    by_cases hd : hitsCell width height r c d
    · have hb : inBounds width height d := hd.1
      have : accumStep width height g d r c = g r c + 1 := by
        rw [accumStep, if_pos hb, if_pos]
        constructor
        · rw [pyInt_eq_floor_of_inBounds_y width height d hb]; exact hd.2.1.symm
        · rw [pyInt_eq_floor_of_inBounds_x width height d hb]; exact hd.2.2.symm
      rw [this]
      simp [hd]
      omega
    · have : accumStep width height g d r c = g r c := by
        rw [accumStep]
        split
        · rename_i hb
          dsimp only
          split
          · rename_i hrc
            exfalso
            exact hd ⟨hb, by rw [← pyInt_eq_floor_of_inBounds_y width height d hb]; exact hrc.1.symm,
              by rw [← pyInt_eq_floor_of_inBounds_x width height d hb]; exact hrc.2.symm⟩
          · rfl
        · rfl
      rw [this]
      simp [hd]

/-- C2: the grid produced by the accumulation loop of `generate_heatmap`
holds, at each cell `(r, c)`, exactly the number of detections `(x, y)`
with `0 ≤ x < width`, `0 ≤ y < height`, `⌊y⌋ = r` and `⌊x⌋ = c`; so each
in-bounds detection increments the single cell `(⌊y⌋, ⌊x⌋)` by exactly 1
and an out-of-bounds detection contributes to no cell. -/
theorem claim_C2 (dets : List (ℚ × ℚ)) (width height : ℕ)
    (_hw : 0 < width) (_hh : 0 < height) (r c : ℕ) :
    accumGrid dets width height r c =
      (dets.filter (fun d => decide (hitsCell width height r c d))).length := by
  have := accumGrid_foldl width height dets (fun _ _ => 0) r c
  simpa [accumGrid] using this

/-- Witness for C2: one in-bounds and one out-of-bounds detection on a
4 × 3 grid; the hit cell holds 1, a neighbouring cell holds 0. -/
theorem claim_C2_witness :
    0 < 4 ∧ 0 < 3 ∧
    accumGrid [((5 : ℚ) / 2, 3 / 2), (9, 1)] 4 3 1 2 = 1 ∧
    accumGrid [((5 : ℚ) / 2, 3 / 2), (9, 1)] 4 3 0 0 = 0 := by
  have hhit : hitsCell 4 3 1 2 ((5 : ℚ) / 2, 3 / 2) :=
    ⟨⟨by norm_num, by norm_num, by norm_num, by norm_num⟩, by norm_num,
      by norm_num; decide⟩
  have hmiss1 : ¬hitsCell 4 3 0 0 ((5 : ℚ) / 2, 3 / 2) := by
    intro hbad
    have h := hbad.2.1
    norm_num at h
  have hout : ∀ r c : ℕ, ¬hitsCell 4 3 r c ((9 : ℚ), 1) := by
    intro r c hbad
    have h := hbad.1.2.1
    norm_num at h
  refine ⟨by norm_num, by norm_num, ?_, ?_⟩
  · rw [claim_C2 [((5 : ℚ) / 2, 3 / 2), (9, 1)] 4 3 (by norm_num) (by norm_num) 1 2,
      List.filter_cons, List.filter_cons, decide_eq_true hhit,
      decide_eq_false (hout 1 2)]
    rfl
  · rw [claim_C2 [((5 : ℚ) / 2, 3 / 2), (9, 1)] 4 3 (by norm_num) (by norm_num) 0 0,
      List.filter_cons, List.filter_cons, decide_eq_false hmiss1,
      decide_eq_false (hout 0 0)]
    rfl

theorem sum_ite_cell (height width r0 c0 : ℕ) (hr : r0 < height) (hc : c0 < width) :
    ∑ r ∈ Finset.range height, ∑ c ∈ Finset.range width,
      (if r = r0 ∧ c = c0 then (1 : ℕ) else 0) = 1 := by
  have step : ∀ r, (∑ c ∈ Finset.range width, if r = r0 ∧ c = c0 then (1 : ℕ) else 0)
      = if r = r0 then 1 else 0 := by
    intro r
    by_cases h1 : r = r0
    · simp only [h1, true_and]
      rw [Finset.sum_ite_eq' (Finset.range width) c0 (fun _ => (1 : ℕ))]
      simp [Finset.mem_range.mpr hc]
    · simp [h1]
  simp only [step]
  rw [Finset.sum_ite_eq' (Finset.range height) r0 (fun _ => (1 : ℕ))]
  simp [Finset.mem_range.mpr hr]

theorem accumStep_sum (width height : ℕ) (g : ℕ → ℕ → ℕ) (d : ℚ × ℚ) :
    ∑ r ∈ Finset.range height, ∑ c ∈ Finset.range width, accumStep width height g d r c =
      (∑ r ∈ Finset.range height, ∑ c ∈ Finset.range width, g r c) +
        (if inBounds width height d then 1 else 0) := by
  by_cases hb : inBounds width height d
  · rw [if_pos hb]
    have hr0 : (pyInt d.2).toNat < height := by
      rw [pyInt_eq_floor_of_inBounds_y width height d hb]
      have h2 : ⌊d.2⌋ < (height : ℤ) := Int.floor_lt.mpr (by exact_mod_cast hb.2.2.2)
      have h3 : 0 ≤ ⌊d.2⌋ := Int.floor_nonneg.mpr hb.2.2.1
      omega
    have hc0 : (pyInt d.1).toNat < width := by
      rw [pyInt_eq_floor_of_inBounds_x width height d hb]
      have h2 : ⌊d.1⌋ < (width : ℤ) := Int.floor_lt.mpr (by exact_mod_cast hb.2.1)
      have h3 : 0 ≤ ⌊d.1⌋ := Int.floor_nonneg.mpr hb.1
      omega
    have hstep : ∀ r c : ℕ, accumStep width height g d r c =
        g r c + (if r = (pyInt d.2).toNat ∧ c = (pyInt d.1).toNat then 1 else 0) := by
      intro r c
      rw [accumStep, if_pos hb]
      split <;> simp
    simp only [hstep]
    rw [show (∑ r ∈ Finset.range height, ∑ c ∈ Finset.range width,
        (g r c + if r = (pyInt d.2).toNat ∧ c = (pyInt d.1).toNat then 1 else 0)) =
        (∑ r ∈ Finset.range height, ∑ c ∈ Finset.range width, g r c) +
        ∑ r ∈ Finset.range height, ∑ c ∈ Finset.range width,
          (if r = (pyInt d.2).toNat ∧ c = (pyInt d.1).toNat then (1 : ℕ) else 0) by
      rw [← Finset.sum_add_distrib]
      exact Finset.sum_congr rfl (fun r _ => Finset.sum_add_distrib)]
    rw [sum_ite_cell height width _ _ hr0 hc0]
  · rw [if_neg hb]
    have hstep : accumStep width height g d = g := by rw [accumStep, if_neg hb]
    rw [hstep, Nat.add_zero]

theorem accumGrid_sum_foldl (width height : ℕ) (dets : List (ℚ × ℚ)) (g : ℕ → ℕ → ℕ) :
    ∑ r ∈ Finset.range height, ∑ c ∈ Finset.range width,
      dets.foldl (accumStep width height) g r c =
      (∑ r ∈ Finset.range height, ∑ c ∈ Finset.range width, g r c) +
        (dets.filter (fun d => decide (inBounds width height d))).length := by
  induction dets generalizing g with
  | nil => simp
  | cons d rest ih =>
    rw [List.foldl_cons, ih, accumStep_sum, List.filter_cons]
    by_cases hb : inBounds width height d
    · simp [hb]; omega
    · simp [hb]

/-- C10: right after the accumulation loop of `generate_heatmap` and
before smoothing, every cell of the density grid is a non-negative
count, and the total over the `height × width` grid equals exactly the
number of detections satisfying `0 ≤ x < width` and `0 ≤ y < height`:
one unit of mass per in-bounds detection. -/
theorem claim_C10 (dets : List (ℚ × ℚ)) (width height : ℕ) :
    (∀ r c : ℕ, 0 ≤ accumGrid dets width height r c) ∧
    ∑ r ∈ Finset.range height, ∑ c ∈ Finset.range width,
        accumGrid dets width height r c =
      (dets.filter (fun d => decide (inBounds width height d))).length := by
  refine ⟨fun r c => Nat.zero_le _, ?_⟩
  rw [accumGrid, accumGrid_sum_foldl]
  simp

/-- scipy reflect boundary handling (mode `'reflect'`, the
`gaussian_filter` default): symmetric reflection about the edges, in
closed form over the period `2n`. -/
def reflectIdx (n : ℕ) (i : ℤ) : ℕ :=
  let j := (i % (2 * (n : ℤ))).toNat
  if j < n then j else 2 * n - 1 - j

/-- `gaussian_filter(heatmap, sigma)` modelled as a separable
convolution with a 1-D kernel weight function `w` of radius `R` under
reflect boundary handling.  The Gaussian weights `exp(-k²/(2σ²))`
(normalized) are transcendental, so the kernel enters as a parameter;
the claims about smoothing hold for an arbitrary kernel. -/
def smoothGrid (w : ℤ → ℚ) (R : ℕ) (height width : ℕ) (g : ℕ → ℕ → ℚ) : ℕ → ℕ → ℚ :=
  fun r c =>
    ∑ p ∈ Finset.Icc (-(R : ℤ)) (R : ℤ), ∑ q ∈ Finset.Icc (-(R : ℤ)) (R : ℤ),
      w p * w q * g (reflectIdx height ((r : ℤ) + p)) (reflectIdx width ((c : ℤ) + q))

/-- `np.clip(heatmap, None, cap_value)`: cap every value at
`cap_value`, no lower bound. -/
def clipGrid (cap : ℚ) (g : ℕ → ℕ → ℚ) : ℕ → ℕ → ℚ :=
  fun r c => min (g r c) cap

/-- Row-major list of the values of a `height × width` grid. -/
def gridVals (height width : ℕ) (g : ℕ → ℕ → ℚ) : List ℚ :=
  (List.range height).flatMap (fun r => (List.range width).map (fun c => g r c))

/-- `cv2.normalize(src, None, 0, 255, cv2.NORM_MINMAX)`, modelled from
the OpenCV semantics: `dst = (src - min) * (255 - 0)/(max - min) + 0`
over the whole grid, with the scale defined as 0 when the grid is flat
(OpenCV guards the division), so a flat grid maps to all zeros. -/
def normalizeMinMax (height width : ℕ) (g : ℕ → ℕ → ℚ) : ℕ → ℕ → ℚ :=
  match (gridVals height width g).min?, (gridVals height width g).max? with
  | some m, some M =>
    if m < M then fun r c => (g r c - m) * (255 / (M - m)) else fun _ _ => 0
  | _, _ => fun _ _ => 0

/-- `generate_heatmap(detections, width, height, sigma, cap_value)`:
accumulate the detections, smooth, cap at `cap_value`, min-max
normalize to 0–255 and cast to `uint8`. -/
def generate_heatmap (w : ℤ → ℚ) (R : ℕ) (dets : List (ℚ × ℚ))
    (width height : ℕ) (cap_value : ℚ) : ℕ → ℕ → ℕ :=
  fun r c => toU8 (normalizeMinMax height width
    (clipGrid cap_value (smoothGrid w R height width
      (fun r' c' => (accumGrid dets width height r' c' : ℚ)))) r c)

theorem gridVals_eq_zero (height width : ℕ) (g : ℕ → ℕ → ℚ)
    (hz : ∀ r c : ℕ, r < height → c < width → g r c = 0) :
    ∀ v ∈ gridVals height width g, v = 0 := by
  intro v hv
  rw [gridVals, List.mem_flatMap] at hv
  obtain ⟨r, hr, hv⟩ := hv
  rw [List.mem_map] at hv
  obtain ⟨c, hc, rfl⟩ := hv
  exact hz r c (List.mem_range.mp hr) (List.mem_range.mp hc)

theorem normalizeMinMax_of_zero (height width : ℕ) (g : ℕ → ℕ → ℚ)
    (hz : ∀ r c : ℕ, r < height → c < width → g r c = 0) (r c : ℕ) :
    normalizeMinMax height width g r c = 0 := by
  have hall := gridVals_eq_zero height width g hz
  unfold normalizeMinMax
  cases hm : (gridVals height width g).min? with
  | none => rfl
  | some m =>
    cases hM : (gridVals height width g).max? with
    | none => rfl
    | some M =>
      have hmem : m ∈ gridVals height width g := List.min?_mem min_choice hm
      have hMem : M ∈ gridVals height width g := List.max?_mem max_choice hM
      have hm0 : m = 0 := hall m hmem
      have hM0 : M = 0 := hall M hMem
      dsimp only
      rw [hm0, hM0, if_neg (lt_irrefl (0 : ℚ))]

/-- C6: the min-max normalization step maps a uniformly zero grid to a
uniformly zero 8-bit grid instead of dividing by zero, and the whole of
`generate_heatmap` on an empty detection list produces the all-zero
grid, for every kernel, radius, dimensions and nonnegative cap. -/
theorem claim_C6 :
    (∀ (height width : ℕ) (g : ℕ → ℕ → ℚ),
      (∀ r c : ℕ, r < height → c < width → g r c = 0) →
      ∀ r c : ℕ, toU8 (normalizeMinMax height width g r c) = 0) ∧
    (∀ (w : ℤ → ℚ) (R width height : ℕ) (cap_value : ℚ), 0 ≤ cap_value →
      ∀ r c : ℕ, generate_heatmap w R [] width height cap_value r c = 0) := by
  have htoU8 : toU8 (0 : ℚ) = 0 := by
    rw [show ((0 : ℚ)) = ((0 : ℕ) : ℚ) by norm_num, toU8_natCast]
  constructor
  · intro height width g hz r c
    rw [normalizeMinMax_of_zero height width g hz r c, htoU8]
  · intro w R width height cap_value hcap r c
    have hacc : ∀ r' c' : ℕ, accumGrid [] width height r' c' = 0 := by
      intro r' c'
      rfl
    have hsm : ∀ r' c' : ℕ,
        smoothGrid w R height width
          (fun r'' c'' => (accumGrid [] width height r'' c'' : ℚ)) r' c' = 0 := by
      intro r' c'
      unfold smoothGrid
      simp [hacc]
    have hcl : ∀ r' c' : ℕ,
        clipGrid cap_value (smoothGrid w R height width
          (fun r'' c'' => (accumGrid [] width height r'' c'' : ℚ))) r' c' = 0 := by
      intro r' c'
      rw [clipGrid, hsm r' c']
      exact min_eq_left hcap
    rw [generate_heatmap, normalizeMinMax_of_zero _ _ _ (fun r' c' _ _ => hcl r' c') r c, htoU8]

/-- Witness for C6: the flat-grid clause at a 1 × 1 zero grid and the
empty-detections clause with a unit kernel on a 2 × 2 grid with the
default cap 100. -/
theorem claim_C6_witness :
    toU8 (normalizeMinMax 1 1 (fun _ _ => 0) 0 0) = 0 ∧
    generate_heatmap (fun _ => 1) 1 [] 2 2 100 0 0 = 0 :=
  ⟨claim_C6.1 1 1 (fun _ _ => 0) (fun _ _ _ _ => rfl) 0 0,
    claim_C6.2 (fun _ => 1) 1 2 2 100 (by norm_num) 0 0⟩

/-- A 3-channel `uint8` pixel, in BGR order. -/
abbrev Pixel3 : Type := ℕ × ℕ × ℕ

/-- `cv2.cvtColor(rgb_image, cv2.COLOR_BGR2BGRA)` on one pixel: append
a fully opaque (255) alpha channel. -/
def toBGRA (p : Pixel3) : U8x4 := (p.1, p.2.1, p.2.2, 255)

/-- One pixel of `overlay_heatmap`: the layer's alpha normalized to
`[0,1]`, `masked_heatmap = heatmap_rgba * alpha`,
`masked_image = image_bgra * (1 - alpha)`, the sum cast to `uint8`, and
the alpha channel dropped (`cv2.COLOR_BGRA2BGR`). -/
def blendPixel (base : Pixel3) (layer : U8x4) : Pixel3 :=
  let alpha : ℚ := (layer.2.2.2 : ℚ) / 255
  let lv : Vec4 := ((layer.1 : ℚ), (layer.2.1 : ℚ), (layer.2.2.1 : ℚ), (layer.2.2.2 : ℚ))
  let bv : Vec4 := (((toBGRA base).1 : ℚ), ((toBGRA base).2.1 : ℚ),
    ((toBGRA base).2.2.1 : ℚ), ((toBGRA base).2.2.2 : ℚ))
  let blended : U8x4 := toU8v (addV (smulV alpha lv) (smulV (1 - alpha) bv))
  (blended.1, blended.2.1, blended.2.2.1)

/-- `overlay_heatmap(rgb_image, heatmap_rgba)`: per-pixel alpha blend of
the RGBA layer over the base image. -/
def overlay_heatmap (img : List (List Pixel3)) (layer : List (List U8x4)) :
    List (List Pixel3) :=
  List.zipWith (fun irow lrow => List.zipWith blendPixel irow lrow) img layer

theorem getD_zipWith {α β γ : Type} (f : α → β → γ) (xs : List α) (ys : List β)
    (j : ℕ) (hx : j < xs.length) (hy : j < ys.length) (dx : α) (dy : β) (dz : γ) :
    (List.zipWith f xs ys).getD j dz = f (xs.getD j dx) (ys.getD j dy) := by
  rw [List.getD_eq_getElem?_getD, List.getElem?_zipWith,
    List.getElem?_eq_getElem hx, List.getElem?_eq_getElem hy,
    List.getD_eq_getElem?_getD, List.getElem?_eq_getElem hx,
    List.getD_eq_getElem?_getD, List.getElem?_eq_getElem hy]
  rfl

theorem blendPixel_formula (b : Pixel3) (l : U8x4) :
    blendPixel b l =
      (toU8 ((l.1 : ℚ) * ((l.2.2.2 : ℚ) / 255) + (b.1 : ℚ) * (1 - (l.2.2.2 : ℚ) / 255)),
       toU8 ((l.2.1 : ℚ) * ((l.2.2.2 : ℚ) / 255) + (b.2.1 : ℚ) * (1 - (l.2.2.2 : ℚ) / 255)),
       toU8 ((l.2.2.1 : ℚ) * ((l.2.2.2 : ℚ) / 255) + (b.2.2 : ℚ) * (1 - (l.2.2.2 : ℚ) / 255))) := by
  unfold blendPixel toBGRA toU8v addV smulV
  dsimp only
  simp only [Prod.mk.injEq]
  refine ⟨?_, ?_, ?_⟩ <;> congr 1 <;> ring

/-- C3: on same-shape inputs, `overlay_heatmap` keeps the base image's
shape (3-channel, same width and height) and computes each output pixel
componentwise as `layer * alpha + base * (1 - alpha)` with `alpha` the
layer's alpha channel normalized to `[0,1]` and the base widened with a
fully opaque alpha channel, truncated to 8-bit unsigned. -/
theorem claim_C3 (img : List (List Pixel3)) (layer : List (List U8x4))
    (hlen : img.length = layer.length)
    (hrow : ∀ i : ℕ, i < img.length → (img.getD i []).length = (layer.getD i []).length) :
    (overlay_heatmap img layer).length = img.length ∧
    (∀ i : ℕ, i < img.length →
      ((overlay_heatmap img layer).getD i []).length = (img.getD i []).length) ∧
    (∀ i j : ℕ, i < img.length → j < (img.getD i []).length →
      ((overlay_heatmap img layer).getD i []).getD j (0, 0, 0) =
        (toU8 (((layer.getD i []).getD j (0, 0, 0, 0)).1 *
            ((((layer.getD i []).getD j (0, 0, 0, 0)).2.2.2 : ℚ) / 255) +
          ((img.getD i []).getD j (0, 0, 0)).1 *
            (1 - (((layer.getD i []).getD j (0, 0, 0, 0)).2.2.2 : ℚ) / 255)),
         toU8 (((layer.getD i []).getD j (0, 0, 0, 0)).2.1 *
            ((((layer.getD i []).getD j (0, 0, 0, 0)).2.2.2 : ℚ) / 255) +
          ((img.getD i []).getD j (0, 0, 0)).2.1 *
            (1 - (((layer.getD i []).getD j (0, 0, 0, 0)).2.2.2 : ℚ) / 255)),
         toU8 (((layer.getD i []).getD j (0, 0, 0, 0)).2.2.1 *
            ((((layer.getD i []).getD j (0, 0, 0, 0)).2.2.2 : ℚ) / 255) +
          ((img.getD i []).getD j (0, 0, 0)).2.2 *
            (1 - (((layer.getD i []).getD j (0, 0, 0, 0)).2.2.2 : ℚ) / 255)))) := by
  have hrowD : ∀ i : ℕ, i < img.length →
      (overlay_heatmap img layer).getD i [] =
        List.zipWith blendPixel (img.getD i []) (layer.getD i []) := by
    intro i hi
    rw [overlay_heatmap, List.getD_eq_getElem?_getD, List.getElem?_zipWith,
      List.getElem?_eq_getElem hi, List.getElem?_eq_getElem (hlen ▸ hi),
      List.getD_eq_getElem?_getD, List.getElem?_eq_getElem hi,
      List.getD_eq_getElem?_getD, List.getElem?_eq_getElem (hlen ▸ hi)]
    rfl
  refine ⟨?_, ?_, ?_⟩
  · rw [overlay_heatmap, List.length_zipWith, hlen, Nat.min_self]
  · intro i hi
    rw [hrowD i hi, List.length_zipWith, hrow i hi, Nat.min_self]
  · intro i j hi hj
    rw [hrowD i hi,
      getD_zipWith blendPixel _ _ j hj (by rw [← hrow i hi]; exact hj) (0, 0, 0) (0, 0, 0, 0) _,
      blendPixel_formula]

/-- Witness for C3 on a concrete 1 × 2 base and layer. -/
theorem claim_C3_witness :
    (overlay_heatmap [[(10, 20, 30), (40, 50, 60)]] [[(255, 0, 0, 51), (0, 255, 0, 0)]]).length = 1 ∧
    ((overlay_heatmap [[(10, 20, 30), (40, 50, 60)]] [[(255, 0, 0, 51), (0, 255, 0, 0)]]).getD 0 []).getD 0 (0, 0, 0) =
      (toU8 ((255 : ℚ) * ((51 : ℚ) / 255) + (10 : ℚ) * (1 - (51 : ℚ) / 255)),
       toU8 ((0 : ℚ) * ((51 : ℚ) / 255) + (20 : ℚ) * (1 - (51 : ℚ) / 255)),
       toU8 ((0 : ℚ) * ((51 : ℚ) / 255) + (30 : ℚ) * (1 - (51 : ℚ) / 255))) := by
  have h := claim_C3 [[(10, 20, 30), (40, 50, 60)]] [[(255, 0, 0, 51), (0, 255, 0, 0)]]
    (by norm_num)
    (by
      intro i hi
      have hi1 : i = 0 := by
        simp only [List.length_cons, List.length_nil] at hi
        omega
      subst hi1
      norm_num)
  refine ⟨h.1, ?_⟩
  have h3 := h.2.2 0 0 (by norm_num) (by norm_num)
  simpa using h3

theorem blendPixel_zero_alpha (b : Pixel3) (l : U8x4) (h : l.2.2.2 = 0) :
    blendPixel b l = b := by
  rw [blendPixel_formula, h]
  simp [toU8_natCast]

theorem zipWith_blendPixel_zero (irow : List Pixel3) (lrow : List U8x4)
    (hlen : irow.length = lrow.length) (hz : ∀ p ∈ lrow, p.2.2.2 = 0) :
    List.zipWith blendPixel irow lrow = irow := by
  induction irow generalizing lrow with
  | nil => simp
  | cons b bs ih =>
    cases lrow with
    | nil => simp at hlen
    | cons l ls =>
      rw [List.zipWith_cons_cons,
        blendPixel_zero_alpha b l (hz l (List.mem_cons_self l ls)),
        ih ls (by simpa using hlen) (fun p hp => hz p (List.mem_cons_of_mem l hp))]

theorem overlay_zero_alpha (img : List (List Pixel3)) (layer : List (List U8x4))
    (hshape : List.Forall₂ (fun r l => r.length = l.length) img layer)
    (hz : ∀ row ∈ layer, ∀ p ∈ row, p.2.2.2 = 0) :
    overlay_heatmap img layer = img := by
  induction hshape with
  | nil => rfl
  | cons hrow hrest ih =>
    rename_i irow lrow irest lrest
    rw [overlay_heatmap, List.zipWith_cons_cons,
      zipWith_blendPixel_zero irow lrow hrow (hz lrow (List.mem_cons_self _ _))]
    have htail := ih (fun row hrow' p hp => hz row (List.mem_cons_of_mem _ hrow') p hp)
    rw [show List.zipWith (fun irow' lrow' => List.zipWith blendPixel irow' lrow') irest lrest =
      overlay_heatmap irest lrest from rfl, htail]

/-- C4: compositing with a layer whose alpha channel is 0 at every
pixel returns the base image unchanged, pixel-for-pixel. -/
theorem claim_C4 (img : List (List Pixel3)) (layer : List (List U8x4))
    (hshape : List.Forall₂ (fun r l => r.length = l.length) img layer)
    (hz : ∀ row ∈ layer, ∀ p ∈ row, alphaOf p = 0) :
    overlay_heatmap img layer = img :=
  overlay_zero_alpha img layer hshape hz

/-- Witness for C4 on a concrete 1 × 1 base and zero-alpha layer. -/
theorem claim_C4_witness :
    overlay_heatmap [[(1, 2, 3)]] [[(9, 9, 9, 0)]] = [[(1, 2, 3)]] :=
  claim_C4 [[(1, 2, 3)]] [[(9, 9, 9, 0)]]
    (List.Forall₂.cons rfl List.Forall₂.nil)
    (by
      intro row hrow p hp
      simp only [List.mem_singleton] at hrow
      subst hrow
      simp only [List.mem_singleton] at hp
      subst hp
      rfl)

theorem blendPixel_once :
    blendPixel (0, 0, 0) (255, 255, 255, 114) = (114, 114, 114) := by
  rw [blendPixel_formula]
  norm_num [toU8, pyInt]
  decide

theorem blendPixel_twice :
    blendPixel (114, 114, 114) (255, 255, 255, 114) = (177, 177, 177) := by
  rw [blendPixel_formula]
  norm_num [toU8, pyInt]
  decide

/-- C9: re-applying an all-zero-alpha layer leaves the composite
unchanged, but compositing is not idempotent once the layer has a
pixel with non-zero alpha: at base pixel `(0,0,0)` and layer pixel
`(255,255,255,114)`, one blend yields 114 per channel and a second
blend yields 177, so blending twice differs from blending once. -/
theorem claim_C9 :
    (∀ (img : List (List Pixel3)) (layer : List (List U8x4)),
      List.Forall₂ (fun r l => r.length = l.length) img layer →
      (∀ row ∈ layer, ∀ p ∈ row, alphaOf p = 0) →
      overlay_heatmap (overlay_heatmap img layer) layer = overlay_heatmap img layer) ∧
    overlay_heatmap
        (overlay_heatmap [[((0 : ℕ), (0 : ℕ), (0 : ℕ))]] [[((255 : ℕ), 255, 255, 114)]])
        [[((255 : ℕ), 255, 255, 114)]] ≠
      overlay_heatmap [[((0 : ℕ), (0 : ℕ), (0 : ℕ))]] [[((255 : ℕ), 255, 255, 114)]] := by
  constructor
  · intro img layer hshape hz
    rw [overlay_zero_alpha img layer hshape hz]
    exact overlay_zero_alpha img layer hshape hz
  · have h1 : overlay_heatmap [[((0 : ℕ), (0 : ℕ), (0 : ℕ))]]
        [[((255 : ℕ), 255, 255, 114)]] = [[(114, 114, 114)]] := by
      rw [overlay_heatmap]
      simp only [List.zipWith_cons_cons, List.zipWith_nil_right, List.zipWith_nil_left]
      rw [blendPixel_once]
    have h2 : overlay_heatmap [[((114 : ℕ), (114 : ℕ), (114 : ℕ))]]
        [[((255 : ℕ), 255, 255, 114)]] = [[(177, 177, 177)]] := by
      rw [overlay_heatmap]
      simp only [List.zipWith_cons_cons, List.zipWith_nil_right, List.zipWith_nil_left]
      rw [blendPixel_twice]
    rw [h1, h2]
    decide

/-- Witness for C9: the zero-alpha clause applied at a concrete 1 × 1
base and layer. -/
theorem claim_C9_witness :
    overlay_heatmap (overlay_heatmap [[((1 : ℕ), (2 : ℕ), (3 : ℕ))]] [[((9 : ℕ), 9, 9, 0)]])
        [[((9 : ℕ), 9, 9, 0)]] =
      overlay_heatmap [[((1 : ℕ), (2 : ℕ), (3 : ℕ))]] [[((9 : ℕ), 9, 9, 0)]] :=
  claim_C9.1 [[((1 : ℕ), (2 : ℕ), (3 : ℕ))]] [[((9 : ℕ), 9, 9, 0)]]
    (List.Forall₂.cons rfl List.Forall₂.nil)
    (by
      intro row hrow p hp
      simp only [List.mem_singleton] at hrow
      subst hrow
      simp only [List.mem_singleton] at hp
      subst hp
      rfl)

/-- Witness for C5 at the concrete index 100 and alpha `9/20`. -/
theorem claim_C5_witness :
    (1 : ℕ) ≤ 100 ∧ (100 : ℕ) ≤ 255 ∧
    (create_custom_colormap (9 / 20)).getD 100 (0, 0, 0, 0) = rampSpecEntry (9 / 20) 100 :=
  ⟨by norm_num, by norm_num, claim_C5.2 (9 / 20) 100 (by norm_num) (by norm_num)⟩

end HeatMap
